import Mathlib

set_option maxRecDepth 8000

/-!
Shallow embedding of the githooklib repository (hook discovery, delegator
generation, install/uninstall lifecycle, installed-hook classification and
repository-root location), together with theorems settling the spec claims.

Filesystem paths are modelled as lists of components (`PyPath`), measured from
the filesystem root; `Path.parent` is `List.dropLast` and `path / name` is
`path ++ [name]`.  A filesystem state is the list of paths that exist.  The
outcome of running the VCS executable is part of the environment (`GitEnv`):
`cmdToplevel` is the resolved answer of `git rev-parse --show-toplevel`
(`none` models a missing binary or non-zero exit), `cmdGitDir` the answer of
`git rev-parse --git-dir`.
-/

abbrev PyPath := List String

/-- Membership of a path in the list of existing filesystem paths
(models `Path.exists()`). -/
def path_mem (p : PyPath) (fsys : List PyPath) : Bool :=
  fsys.contains p

/-- Chain `[current] + list(current.parents)`: the path itself followed by all
of its ancestors up to the filesystem root (the empty component list). -/
def ancestorChain : PyPath → List PyPath
  | [] => [[]]
  | a :: rest => (ancestorChain rest).map (fun q => a :: q) ++ [[]]

/-- Python `str.split(sep)` on an explicit character list: splits at every
separator and keeps empty chunks, so the result is always non-empty. -/
def py_split_char (sep : Char) : List Char → List (List Char)
  | [] => [[]]
  | c :: rest =>
    match py_split_char sep rest with
    | [] => [[c]]
    | chunk :: more => if c == sep then [] :: chunk :: more else (c :: chunk) :: more

/-- Python `str.split(sep)` for a single-character separator. -/
def py_split (sep : Char) (s : String) : List String :=
  (py_split_char sep s.data).map (fun cs => String.mk cs)

/-- Python `sep.join(xs)`. -/
def py_join (sep : String) : List String → String
  | [] => ""
  | [s] => s
  | s :: rest => s ++ sep ++ py_join sep rest

/-- Characters removed by Python `str.strip()` (ASCII whitespace). -/
def py_is_space (c : Char) : Bool :=
  c == ' ' || c == '\t' || c == '\n' || c == '\r' || c == '\x0b' || c == '\x0c'

/-- Python `str.strip()`. -/
def py_strip (s : String) : String :=
  String.mk (((s.data.dropWhile py_is_space).reverse.dropWhile py_is_space).reverse)

/-- Substring containment on character lists (Python `needle in hay`):
`needle` is a prefix of some suffix of `hay`. -/
def list_contains_sub : List Char → List Char → Bool
  | needle, [] => needle.isEmpty
  | needle, c :: rest => needle.isPrefixOf (c :: rest) || list_contains_sub needle rest

/-- Substring containment on strings (Python `needle in hay`). -/
def str_contains_sub (needle hay : String) : Bool :=
  list_contains_sub needle.data hay.data

/-- Python `str.endswith(suffix)`. -/
def str_ends_with (s suf : String) : Bool :=
  suf.data.isSuffixOf s.data

/-- Replace every occurrence of `pat` in a character list by `rep`, scanning
left to right; the fuel argument (instantiated with the list length) keeps the
recursion structural. -/
def replace_fuel (pat rep : List Char) : Nat → List Char → List Char
  | 0, cs => cs
  | _ + 1, [] => []
  | fuel + 1, c :: rest =>
    if pat.isPrefixOf (c :: rest) then
      rep ++ replace_fuel pat rep fuel ((c :: rest).drop pat.length)
    else
      c :: replace_fuel pat rep fuel rest

/-- Replacement of one `str.format` field: every occurrence of `pat` in `s`
is replaced by `rep`. -/
def py_format_replace (pat rep s : String) : String :=
  String.mk (replace_fuel pat.data rep.data s.data.length s.data)

/-- Environment a root-locating function runs in: the answers of the two
`git rev-parse` queries, the set of existing paths, and the working
directory. -/
structure GitEnv where
  cmdToplevel : Option PyPath
  cmdGitDir : Option PyPath
  fsys : List PyPath
  cwd : PyPath
deriving DecidableEq

/-- Translation of `GitRepositoryGateway._find_git_root_via_command`
(src/githooklib/gateways/git_repository_gateway.py): accept the
`--show-toplevel` answer only if a `.git` directory exists there, and in that
case return `git_root / ".git"`. -/
def GitRepositoryGateway.find_git_root_via_command (env : GitEnv) : Option PyPath :=
  match env.cmdToplevel with
  | none => none
  | some git_root =>
    if path_mem (git_root ++ [".git"]) env.fsys then some (git_root ++ [".git"]) else none

/-- Translation of `GitRepositoryGateway._find_git_root_via_filesystem`: walk
upward from the current working directory and return the first ancestor that
contains a `.git` entry. -/
def GitRepositoryGateway.find_git_root_via_filesystem (env : GitEnv) : Option PyPath :=
  (ancestorChain env.cwd).find? (fun path => path_mem (path ++ [".git"]) env.fsys)

/-- Translation of `GitRepositoryGateway.find_git_root`: the command strategy,
falling back to the filesystem walk when it yields nothing. -/
def GitRepositoryGateway.find_git_root (env : GitEnv) : Option PyPath :=
  match GitRepositoryGateway.find_git_root_via_command env with
  | some git_root => some git_root
  | none => GitRepositoryGateway.find_git_root_via_filesystem env

/-- Modelled from the spec: section 4.1 `RepositoryRootLocator` as the claims
read it — query the VCS executable for its canonical top-level directory and
accept that directory itself when a metadata directory exists there, otherwise
walk upward from the current working directory.  Kept separate from the source
translation above so the two can be compared. -/
def find_git_root_spec (env : GitEnv) : Option PyPath :=
  match env.cmdToplevel with
  | some git_root =>
    if path_mem (git_root ++ [".git"]) env.fsys then some git_root
    else GitRepositoryGateway.find_git_root_via_filesystem env
  | none => GitRepositoryGateway.find_git_root_via_filesystem env

/-- Translation of `DELEGATOR_SCRIPT_TEMPLATE` (src/githooklib/constants.py):
the template text after Python evaluates the surrounding f-string, so the
doubled braces of the source collapse to the single-brace `str.format` fields
`{module_name}` and `{class_name}`. -/
def DELEGATOR_SCRIPT_TEMPLATE : String :=
  "#!/usr/bin/env python3\n"
  ++ "\n"
  ++ "import logging\n"
  ++ "import os\n"
  ++ "import subprocess\n"
  ++ "import sys\n"
  ++ "from pathlib import Path\n"
  ++ "from typing import Optional\n"
  ++ "\n"
  ++ "\n"
  ++ "def find_git_root_via_command() -> Optional[Path]:\n"
  ++ "    try:\n"
  ++ "        result = subprocess.run(\n"
  ++ "            [\"git\", \"rev-parse\", \"--show-toplevel\"],\n"
  ++ "            capture_output=True,\n"
  ++ "            text=True,\n"
  ++ "            check=True,\n"
  ++ "        )\n"
  ++ "        git_root = Path(result.stdout.strip()).resolve()\n"
  ++ "        if (git_root / \".git\").exists():\n"
  ++ "            return git_root\n"
  ++ "        return None\n"
  ++ "    except (subprocess.CalledProcessError, FileNotFoundError):\n"
  ++ "        return None\n"
  ++ "\n"
  ++ "\n"
  ++ "def find_project_root() -> Optional[Path]:\n"
  ++ "    git_root = find_git_root_via_command()\n"
  ++ "    if not git_root:\n"
  ++ "        return None\n"
  ++ "    \n"
  ++ "    return git_root.parent\n"
  ++ "\n"
  ++ "\n"
  ++ "def _is_debug_enabled() -> bool:\n"
  ++ "    debug_env = os.getenv(\"GITHOOKLIB_DEBUG\", \"\").lower()\n"
  ++ "    return debug_env in (\"1\", \"true\", \"yes\")\n"
  ++ "\n"
  ++ "\n"
  ++ "def _get_log_level() -> Optional[int]:\n"
  ++ "    return logging.DEBUG if _is_debug_enabled() else None\n"
  ++ "\n"
  ++ "\n"
  ++ "def _print_error_and_exit(module_name: str) -> None:\n"
  ++ "    module_file_path = \"/\".join(module_name.split(\".\")) + \".py\"\n"
  ++ "    error_message = f\"Error: Could not find project root containing {module_name}\"\n"
  ++ "    file_message = \"Looked for module file: \" + module_file_path\n"
  ++ "    print(error_message, file=sys.stderr)\n"
  ++ "    print(file_message, file=sys.stderr)\n"
  ++ "    sys.exit(1)\n"
  ++ "\n"
  ++ "\n"
  ++ "def main() -> None:\n"
  ++ "    module_name = \"{module_name}\"\n"
  ++ "    \n"
  ++ "    project_root = find_project_root()\n"
  ++ "    if not project_root:\n"
  ++ "        _print_error_and_exit(module_name)\n"
  ++ "    \n"
  ++ "    sys.path.insert(0, str(project_root))\n"
  ++ "    from {module_name} import {class_name}\n"
  ++ "    \n"
  ++ "    log_level = _get_log_level()\n"
  ++ "    hook = {class_name}(log_level=log_level)\n"
  ++ "    exit_code = hook.run()\n"
  ++ "    sys.exit(exit_code)\n"
  ++ "\n"
  ++ "\n"
  ++ "if __name__ == \"__main__\":\n"
  ++ "    main()\n"

/-- Translation of `GitHook._generate_delegator_script`
(src/githooklib/git_hook.py): `DELEGATOR_SCRIPT_TEMPLATE.format(module_name=...,
class_name=...)`. -/
def generate_delegator_script (module_name class_name : String) : String :=
  py_format_replace "{class_name}" class_name
    (py_format_replace "{module_name}" module_name DELEGATOR_SCRIPT_TEMPLATE)

/-- Behaviour of `find_git_root_via_command` as embedded in the rendered
delegator script: accept the `--show-toplevel` answer only if a `.git`
directory exists there, and return the answer itself. -/
def delegator_find_git_root_via_command (env : GitEnv) : Option PyPath :=
  match env.cmdToplevel with
  | none => none
  | some git_root =>
    if path_mem (git_root ++ [".git"]) env.fsys then some git_root else none

/-- Behaviour of `find_project_root` as embedded in the rendered delegator
script: the command query only, and on success `git_root.parent`. -/
def delegator_find_project_root (env : GitEnv) : Option PyPath :=
  match delegator_find_git_root_via_command env with
  | none => none
  | some git_root => some git_root.dropLast

/-- Observable outcome of running the delegator script: either it prints the
given diagnostics and exits with the given code, or it inserts a directory at
the front of the module search path and dispatches to the embedded
identifiers. -/
inductive DelegatorOutcome where
  | errorExit (messages : List String) (code : Nat)
  | runHook (inserted : PyPath) (module_name class_name : String)
deriving DecidableEq

/-- Messages printed by `_print_error_and_exit` in a script rendered for
`module_name` (the f-string field was filled at render time). -/
def delegator_error_messages (module_name : String) : List String :=
  ["Error: Could not find project root containing " ++ module_name,
   "Looked for module file: " ++ py_join "/" (py_split '.' module_name) ++ ".py"]

/-- Behaviour of `main` in the delegator script rendered for
`(module_name, class_name)`. -/
def delegator_main (module_name class_name : String) (env : GitEnv) : DelegatorOutcome :=
  match delegator_find_project_root env with
  | none => .errorExit (delegator_error_messages module_name) 1
  | some project_root => .runHook project_root module_name class_name

def EXIT_SUCCESS : Int := 0

def EXIT_FAILURE : Int := 1

/-- Translation of the `HookResult` dataclass
(src/githooklib/definitions.py, identical in git_hook.py and base.py). -/
structure HookResult where
  success : Bool
  message : Option String
  exit_code : Int
deriving DecidableEq

/-- Construction of a `HookResult` followed by `__post_init__`: an
inconsistent pair is rewritten to the success-derived value. -/
def mkHookResult (success : Bool) (message : Option String) (exit_code : Int) : HookResult :=
  if exit_code == EXIT_SUCCESS && !success then
    { success := success, message := message, exit_code := EXIT_FAILURE }
  else if exit_code != EXIT_SUCCESS && success then
    { success := success, message := message, exit_code := EXIT_SUCCESS }
  else
    { success := success, message := message, exit_code := exit_code }

/-- Translation of the `GitHookContext` dataclass (src/githooklib/context.py). -/
structure GitHookContext where
  hook_name : String
  stdin_lines : List String
  project_root : Option PyPath
deriving DecidableEq

/-- Translation of `GitHookContext._find_git_root_via_command`: the
`--git-dir` answer's parent, with no metadata check. -/
def context_find_git_root_via_command (env : GitEnv) : Option PyPath :=
  match env.cmdGitDir with
  | none => none
  | some git_dir => some git_dir.dropLast

/-- Translation of `GitHookContext._find_project_root`: command query first,
ancestor walk on failure. -/
def context_find_project_root (env : GitEnv) : Option PyPath :=
  match context_find_git_root_via_command env with
  | some git_root => some git_root
  | none => GitRepositoryGateway.find_git_root_via_filesystem env

/-- Translation of `GitHookContext._read_stdin_lines`: empty payload on an
interactive terminal, otherwise `sys.stdin.read().strip().split("\n")`.
The piped standard-input text is the `content` argument. -/
def read_stdin_lines (isatty : Bool) (content : String) : List String :=
  if isatty then [] else py_split '\n' (py_strip content)

/-- Translation of `GitHookContext.from_stdin` together with `__post_init__`
(which fills `project_root` when it was not supplied). -/
def GitHookContext.from_stdin (hook_name : String) (isatty : Bool) (content : String)
    (env : GitEnv) : GitHookContext :=
  { hook_name := hook_name
    stdin_lines := read_stdin_lines isatty content
    project_root := context_find_project_root env }

/-- Translation of `GitHookContext.get_stdin_line`. -/
def GitHookContext.get_stdin_line (ctx : GitHookContext) (index : Int)
    (default : Option String) : Option String :=
  if h : 0 ≤ index ∧ index < (ctx.stdin_lines.length : Int) then
    some (ctx.stdin_lines.get ⟨index.toNat, by omega⟩)
  else default

/-- Translation of `GitHookContext.has_stdin`. -/
def GitHookContext.has_stdin (ctx : GitHookContext) : Bool :=
  decide (0 < ctx.stdin_lines.length)

/-- Outcome of the body of `GitHook.run`'s `try` block: either context
construction plus `execute` return a `HookResult`, or some exception is
raised (carrying its text and the formatted traceback). -/
inductive HookExecOutcome where
  | ok (result : HookResult)
  | raises (message : String) (traceback : String)
deriving DecidableEq

/-- Translation of `GitHook._handle_error` (src/githooklib/git_hook.py): the
two error records it logs. -/
def handle_error_logs (message traceback : String) : List String :=
  ["Unexpected error in hook: " ++ message, traceback]

/-- Translation of `GitHook.run`: returns the exit code together with the
error log records emitted on the exception path. -/
def GitHook.run (outcome : HookExecOutcome) : Int × List String :=
  match outcome with
  | .ok result => (result.exit_code, [])
  | .raises message traceback => (1, handle_error_logs message traceback)

/-- Conversion of a module identifier to the source-file path checked by
`GitHook._find_project_root` (`Path(*parts).with_suffix(".py")`). -/
def module_file_path (module_name : String) : PyPath :=
  let parts := py_split '.' module_name
  parts.dropLast ++ [parts.getLastD "" ++ ".py"]

/-- Translation of `GitHook._find_git_root` (src/githooklib/git_hook.py): the
plain ancestor walk from the current working directory. -/
def GitHook.find_git_root (env : GitEnv) : Option PyPath :=
  (ancestorChain env.cwd).find? (fun path => path_mem (path ++ [".git"]) env.fsys)

/-- Translation of `GitHook._find_project_root`: first ancestor of the working
directory holding both the module's source file and a `githooklib` entry. -/
def GitHook.find_project_root (env : GitEnv) (module_name : String) : Option PyPath :=
  (ancestorChain env.cwd).find? (fun path =>
    path_mem (path ++ module_file_path module_name) env.fsys &&
      path_mem (path ++ ["githooklib"]) env.fsys)

/-- Translation of `GitHook._validate_installation_prerequisites`: git root
found and `git_root/.git/hooks` existing. -/
def validate_installation_prerequisites (env : GitEnv) : Option PyPath :=
  match GitHook.find_git_root env with
  | none => none
  | some git_root =>
    if path_mem (git_root ++ [".git", "hooks"]) env.fsys then
      some (git_root ++ [".git", "hooks"])
    else none

/-- Contents of the hook-slot directory: file name paired with file content. -/
abbrev HooksDir := List (String × String)

/-- Model of `Path.write_text`: overwrite the named file if present, create it
otherwise. -/
def write_text (files : HooksDir) (name content : String) : HooksDir :=
  if (files.lookup name).isSome then
    files.map (fun f => if f.1 == name then (f.1, content) else f)
  else
    files ++ [(name, content)]

/-- Model of `Path.unlink`: remove the named file. -/
def unlink_file (files : HooksDir) (name : String) : HooksDir :=
  files.filter (fun f => f.1 != name)

/-- Translation of `GitHook.install` (src/githooklib/git_hook.py): validate
prerequisites, resolve the project root for diagnostics, render the delegator
and write it to `hooks_dir / hook_name` (the chmod that follows does not change
the file map).  Returns the success flag and the hook-slot directory state. -/
def GitHook.install (env : GitEnv) (module_name class_name hook_name : String)
    (files : HooksDir) : Bool × HooksDir :=
  match validate_installation_prerequisites env with
  | none => (false, files)
  | some _hooks_dir =>
    match GitHook.find_project_root env module_name with
    | none => (false, files)
    | some _project_root =>
      (true, write_text files hook_name (generate_delegator_script module_name class_name))

/-- Translation of `GitHook.uninstall`: require a git root, warn-and-fail when
the named script is absent, otherwise unlink exactly that file. -/
def GitHook.uninstall (env : GitEnv) (hook_name : String) (files : HooksDir) :
    Bool × HooksDir :=
  match GitHook.find_git_root env with
  | none => (false, files)
  | some _git_root =>
    match files.lookup hook_name with
    | none => (false, files)
    | some _ => (true, unlink_file files hook_name)

/-- One directory entry seen by `HookAPI._get_installed_hooks`: its name,
whether it is a regular file, and the text `read_text` yields (`none` models a
read failure: permissions or encoding). -/
structure DirEntry where
  name : String
  is_file : Bool
  content : Option String
deriving DecidableEq

/-- Translation of `HookAPI._is_tool_installed_hook` (src/githooklib/api.py):
content sentinel check, with read failures mapped to `false`. -/
def is_tool_installed_hook (content : Option String) : Bool :=
  match content with
  | none => false
  | some text => str_contains_sub "githooklib" text && str_contains_sub "find_project_root" text

/-- Translation of `HookAPI._get_installed_hooks`: every regular file whose
name does not end in `.sample`, mapped to the sentinel classification. -/
def get_installed_hooks (entries : List DirEntry) : List (String × Bool) :=
  entries.filterMap (fun e =>
    if e.is_file && !(str_ends_with e.name ".sample") then
      some (e.name, is_tool_installed_hook e.content)
    else none)

/-- One registered hook implementation, as discovery sees it: the defining
class name, the module it was defined in (`cls.__module__`), and the hook name
its instance reports (`instance.hook_name`). -/
structure HookImpl where
  className : String
  moduleName : String
  hookName : String
deriving DecidableEq

/-- Placeholder implementation used only for the (unreachable) empty-group
head in the final map construction. -/
def defaultHookImpl : HookImpl :=
  { className := "", moduleName := "", hookName := "" }

/-- One step of the grouping loop of `HookAPI.discover_hooks`: append the
implementation to its name's bucket, creating the bucket at the end on first
sight (Python dicts preserve insertion order). -/
def addToGroups (groups : List (String × List HookImpl)) (impl : HookImpl) :
    List (String × List HookImpl) :=
  if (groups.lookup impl.hookName).isSome then
    groups.map (fun g => if g.1 == impl.hookName then (g.1, g.2 ++ [impl]) else g)
  else
    groups ++ [(impl.hookName, [impl])]

/-- The `hook_classes_by_name` grouping of `HookAPI.discover_hooks`. -/
def groupByName (registry : List HookImpl) : List (String × List HookImpl) :=
  registry.foldl addToGroups []

/-- Translation of `HookAPI._find_module_file` (src/githooklib/api.py):
`findSpecOrigin` models `importlib.util.find_spec(...).origin`; the origin is
made relative to the project root when it lies under it. -/
def find_module_file (findSpecOrigin : String → Option PyPath)
    (projectRoot : Option PyPath) (module_name : String) : Option String :=
  match findSpecOrigin module_name with
  | none => none
  | some origin =>
    match projectRoot with
    | none => some (py_join "/" origin)
    | some root =>
      if root.isPrefixOf origin then some (py_join "/" (origin.drop root.length))
      else some (py_join "/" origin)

/-- One per-implementation line of `HookAPI._raise_duplicate_hook_error`. -/
def impl_error_line (findSpecOrigin : String → Option PyPath)
    (projectRoot : Option PyPath) (impl : HookImpl) : String :=
  match find_module_file findSpecOrigin projectRoot impl.moduleName with
  | some module_file => "    - " ++ impl.className ++ " in " ++ module_file
  | none => "    - " ++ impl.className ++ " in module \x27" ++ impl.moduleName ++ "\x27"

/-- The `error_lines` list composed by `HookAPI._raise_duplicate_hook_error`. -/
def duplicate_error_lines (findSpecOrigin : String → Option PyPath)
    (projectRoot : Option PyPath) (dups : List (String × List HookImpl)) : List String :=
  "Duplicate hook implementations found:" ::
    dups.flatMap (fun g =>
      ("\n  Hook \x27" ++ g.1 ++ "\x27 is defined in multiple classes:") ::
        g.2.map (impl_error_line findSpecOrigin projectRoot))

/-- The message of the `ValueError` raised by
`HookAPI._raise_duplicate_hook_error`. -/
def duplicate_error_message (findSpecOrigin : String → Option PyPath)
    (projectRoot : Option PyPath) (dups : List (String × List HookImpl)) : String :=
  py_join "\n" (duplicate_error_lines findSpecOrigin projectRoot dups)

/-- One configured hook search path: `Path(search_path).is_absolute()` plus
its components. -/
structure SearchPath where
  isAbsolute : Bool
  comps : List String
deriving DecidableEq

/-- World state that `HookAPI` discovery reads: the process-wide registry
(`GitHook.get_registered_hooks()` after all loads), the module-spec origin
lookup, the directory listings of the filesystem, and the working
directory. -/
structure DiscoveryEnv where
  registry : List HookImpl
  findSpecOrigin : String → Option PyPath
  dirs : List (PyPath × List String)
  cwd : PyPath

/-- The mutable fields of a `HookAPI` instance. -/
structure APIState where
  projectRoot : Option PyPath
  hookSearchPaths : List SearchPath
  hooksMemo : Option (List (String × HookImpl))
deriving DecidableEq

/-- Translation of `HookAPI._find_hook_modules`: `*_hook.py` files directly
under the project root, then for each configured search path (absolute, or
resolved against the working directory) every `*.py` file except
`__init__.py`, in listing order. -/
def find_hook_modules (env : DiscoveryEnv) (projectRoot : Option PyPath)
    (searchPaths : List SearchPath) : List PyPath :=
  (match projectRoot with
   | none => []
   | some root =>
     (((env.dirs.lookup root).getD []).filter
         (fun n => str_ends_with n "_hook.py")).map (fun n => root ++ [n]))
  ++ searchPaths.flatMap (fun sp =>
      let search_dir := if sp.isAbsolute then sp.comps else env.cwd ++ sp.comps
      match env.dirs.lookup search_dir with
      | none => []
      | some names =>
        (names.filter (fun n => str_ends_with n ".py" && n != "__init__.py")).map
          (fun n => search_dir ++ [n]))

deriving instance DecidableEq for Except

/-- Result of one `discover_hooks` call: the returned map or the raised
duplicate error, the `HookAPI` state afterwards, and the list of module files
the call loaded. -/
structure DiscoverOut where
  result : Except String (List (String × HookImpl))
  state : APIState
  loadedModules : List PyPath
deriving DecidableEq

/-- Translation of `HookAPI.discover_hooks` (src/githooklib/api.py): memo
short-circuit, empty map without a project root, then load, group, check
duplicates and either raise or publish and memoize the map. -/
def HookAPI.discover_hooks (env : DiscoveryEnv) (s : APIState) : DiscoverOut :=
  match s.hooksMemo with
  | some hooks => { result := .ok hooks, state := s, loadedModules := [] }
  | none =>
    match s.projectRoot with
    | none => { result := .ok [], state := s, loadedModules := [] }
    | some _ =>
      let loaded := find_hook_modules env s.projectRoot s.hookSearchPaths
      let groups := groupByName env.registry
      let dups := groups.filter (fun g => decide (1 < g.2.length))
      if !dups.isEmpty then
        { result := .error (duplicate_error_message env.findSpecOrigin s.projectRoot dups)
          state := s, loadedModules := loaded }
      else
        let hooks := groups.map (fun g => (g.1, g.2.headD defaultHookImpl))
        { result := .ok hooks
          state := { s with hooksMemo := some hooks }
          loadedModules := loaded }

/-- Translation of `HookAPI.set_hook_paths`: replace the search paths and
reset the cached hooks to force rediscovery. -/
def HookAPI.set_hook_paths (s : APIState) (paths : List SearchPath) : APIState :=
  { s with hookSearchPaths := paths, hooksMemo := none }

/-! ### Helper lemmas -/

lemma py_split_char_ne_nil (sep : Char) (cs : List Char) : py_split_char sep cs ≠ [] := by
  cases cs with
  | nil => simp [py_split_char]
  | cons c rest =>
    simp only [py_split_char]
    cases h : py_split_char sep rest with
    | nil => simp
    | cons chunk more =>
      by_cases hc : c == sep <;> simp [hc]

lemma read_stdin_lines_piped_ne_nil (content : String) :
    read_stdin_lines false content ≠ [] := by
  intro h
  refine py_split_char_ne_nil '\n' (py_strip content).data ?_
  simpa [read_stdin_lines, py_split] using h

/-! ### Claim C5 -/

/-- C5: the `HookResult` constructor normalizes an inconsistent
`success`/`exit_code` pair to the success-derived value (success with a
non-zero code becomes `0`, failure with code `0` becomes `1`, a consistent
pair is kept), so `exit_code = 0` holds exactly when `success` does. -/
theorem hook_result_normalization (success : Bool) (message : Option String)
    (exit_code : Int) :
    mkHookResult success message exit_code =
      { success := success, message := message,
        exit_code := if success then 0 else if exit_code = 0 then 1 else exit_code } ∧
    ((mkHookResult success message exit_code).exit_code = 0 ↔ success = true) := by
  have h : mkHookResult success message exit_code =
      { success := success, message := message,
        exit_code := if success then 0 else if exit_code = 0 then 1 else exit_code } := by
    unfold mkHookResult EXIT_SUCCESS EXIT_FAILURE
    cases success <;> by_cases he : exit_code = 0 <;> simp [he]
  refine ⟨h, ?_⟩
  rw [h]
  cases success <;> by_cases he : exit_code = 0 <;> simp [he]

/-! ### Claim C8 -/

/-- C8: `GitHook.run` maps an exception raised during context construction or
`execute` to exit code `1` (non-zero) together with two logged error records
(the message and the traceback), and maps a normal `execute` return to that
result's `exit_code`; being a total function of the outcome, it never lets the
exception propagate. -/
theorem git_hook_run_error_containment (result : HookResult)
    (message traceback : String) :
    GitHook.run (.ok result) = (result.exit_code, []) ∧
    GitHook.run (.raises message traceback) =
      (1, ["Unexpected error in hook: " ++ message, traceback]) ∧
    (GitHook.run (.raises message traceback)).1 ≠ 0 ∧
    (GitHook.run (.raises message traceback)).2.length = 2 := by
  exact ⟨rfl, rfl, by simp [GitHook.run, handle_error_logs], rfl⟩

/-! ### Claim C10 -/

/-- C10: with piped but empty standard input `from_stdin` yields
`stdin_lines = [""]`, so `has_stdin` is `true` and `get_stdin_line 0` returns
`""`; only on an interactive terminal is the payload the empty list with
`has_stdin` `false` — indeed any piped input at all makes `has_stdin` `true`,
so an empty pipe is indistinguishable from a payload by `has_stdin`. -/
theorem context_empty_pipe_payload (hook_name content : String) (env : GitEnv) :
    (GitHookContext.from_stdin hook_name false "" env).stdin_lines = [""] ∧
    (GitHookContext.from_stdin hook_name false "" env).has_stdin = true ∧
    (GitHookContext.from_stdin hook_name false "" env).get_stdin_line 0 none = some "" ∧
    (GitHookContext.from_stdin hook_name true content env).stdin_lines = [] ∧
    (GitHookContext.from_stdin hook_name true content env).has_stdin = false ∧
    (GitHookContext.from_stdin hook_name false content env).has_stdin = true := by
  refine ⟨rfl, rfl, rfl, rfl, rfl, ?_⟩
  simp only [GitHookContext.has_stdin, GitHookContext.from_stdin, decide_eq_true_eq]
  have h := read_stdin_lines_piped_ne_nil content
  cases hr : read_stdin_lines false content with
  | nil => exact absurd hr h
  | cons a t => simp

/-! ### Claim C1 -/

/-- C1: evaluation of the rendered delegator's root location at concrete
environments.  In the first environment the VCS command answers
`/home/user/repo` and the metadata directory exists there, yet the delegator
inserts the parent `/home/user` into its module search path, while the
two-strategy locator of section 4.1 yields `/home/user/repo`.  In the second
environment the command fails while an ancestor walk from the working
directory would find `/home/user/repo`; the delegator has no fallback walk, so
it prints the diagnostics naming the module and exits 1. -/
theorem delegator_inserts_parent_and_lacks_fallback_eval :
    delegator_main "githooks.pre_commit" "PreCommit"
        ⟨some ["home", "user", "repo"], none,
          [["home", "user", "repo", ".git"]], ["home", "user", "repo"]⟩ =
      .runHook ["home", "user"] "githooks.pre_commit" "PreCommit" ∧
    find_git_root_spec
        ⟨some ["home", "user", "repo"], none,
          [["home", "user", "repo", ".git"]], ["home", "user", "repo"]⟩ =
      some ["home", "user", "repo"] ∧
    delegator_main "githooks.pre_commit" "PreCommit"
        ⟨none, none, [["home", "user", "repo", ".git"]], ["home", "user", "repo"]⟩ =
      .errorExit
        ["Error: Could not find project root containing githooks.pre_commit",
         "Looked for module file: githooks/pre_commit.py"] 1 ∧
    find_git_root_spec
        ⟨none, none, [["home", "user", "repo", ".git"]], ["home", "user", "repo"]⟩ =
      some ["home", "user", "repo"] := by
  decide

/-! ### Claim C2 -/

/-- C2 counterexample: in an environment where the command query answers
`/repo` and `/repo/.git` exists, `find_git_root` returns the metadata
directory `/repo/.git`, not the working-tree root `/repo` that the claim (and
the section 4.1 reading, `find_git_root_spec`) require. -/
theorem find_git_root_returns_metadata_dir_cex :
    GitRepositoryGateway.find_git_root
        ⟨some ["repo"], none, [["repo", ".git"]], ["repo"]⟩ =
      some ["repo", ".git"] ∧
    find_git_root_spec ⟨some ["repo"], none, [["repo", ".git"]], ["repo"]⟩ =
      some ["repo"] ∧
    (some (["repo", ".git"] : PyPath) ≠ some (["repo"] : PyPath)) := by
  decide

/-- C2 (amended): `find_git_root` accepts the command answer only when a
`.git` directory exists at it and then returns that metadata directory
(`answer/.git`, not the working-tree root); when the command strategy yields
nothing it falls back to the upward walk, whose answer is an ancestor of the
working directory holding a `.git` entry; when no ancestor qualifies either,
it returns `none` rather than raising. -/
theorem find_git_root_characterization (env : GitEnv) :
    (∀ r, env.cmdToplevel = some r → path_mem (r ++ [".git"]) env.fsys = true →
      GitRepositoryGateway.find_git_root env = some (r ++ [".git"])) ∧
    (GitRepositoryGateway.find_git_root_via_command env = none →
      GitRepositoryGateway.find_git_root env =
        GitRepositoryGateway.find_git_root_via_filesystem env) ∧
    (∀ p, GitRepositoryGateway.find_git_root_via_filesystem env = some p →
      p ∈ ancestorChain env.cwd ∧ path_mem (p ++ [".git"]) env.fsys = true) ∧
    ((∀ q ∈ ancestorChain env.cwd, path_mem (q ++ [".git"]) env.fsys = false) →
      GitRepositoryGateway.find_git_root_via_command env = none →
      GitRepositoryGateway.find_git_root env = none) := by
  refine ⟨?_, ?_, ?_, ?_⟩
  · intro r hr hm
    simp [GitRepositoryGateway.find_git_root,
      GitRepositoryGateway.find_git_root_via_command, hr, hm]
  · intro h
    simp [GitRepositoryGateway.find_git_root, h]
  · intro p hp
    simp only [GitRepositoryGateway.find_git_root_via_filesystem] at hp
    refine ⟨List.mem_of_find?_eq_some hp, ?_⟩
    have h2 := List.find?_some hp
    simpa using h2
  · intro hall hcmd
    have hwalk : GitRepositoryGateway.find_git_root_via_filesystem env = none := by
      simp only [GitRepositoryGateway.find_git_root_via_filesystem]
      rw [List.find?_eq_none]
      intro q hq
      simp [hall q hq]
    simp [GitRepositoryGateway.find_git_root, hcmd, hwalk]

/-- C2 witness: the amended characterization applied at a concrete
environment. -/
theorem find_git_root_characterization_witness :
    GitRepositoryGateway.find_git_root
        ⟨some ["a", "b"], none, [["a", "b", ".git"]], []⟩ =
      some ["a", "b", ".git"] :=
  (find_git_root_characterization _).1 ["a", "b"] rfl (by decide)

/-! ### Claim C7 -/

set_option maxHeartbeats 2000000 in
lemma rendered_script_has_second_sentinel :
    str_contains_sub "find_project_root"
      (generate_delegator_script "githooks.pre_commit" "PreCommit") = true := by
  decide

set_option maxHeartbeats 2000000 in
lemma rendered_script_lacks_first_sentinel :
    str_contains_sub "githooklib"
      (generate_delegator_script "githooks.pre_commit" "PreCommit") = false := by
  decide

lemma classifier_eval_on_rendered_script :
    get_installed_hooks
        [{ name := "pre-commit", is_file := true,
           content := some (generate_delegator_script "githooks.pre_commit" "PreCommit") }] =
      [("pre-commit", false)] := by
  have hsample : str_ends_with "pre-commit" ".sample" = false := by decide
  simp [get_installed_hooks, is_tool_installed_hook, hsample,
    rendered_script_lacks_first_sentinel]

/-- C7: evaluation of the installed-hook classifier on the very script the
installer writes.  The script rendered from `DELEGATOR_SCRIPT_TEMPLATE` for
`(githooks.pre_commit, PreCommit)` contains the sentinel `find_project_root`
but not the sentinel `githooklib` (the template only mentions
`GITHOOKLIB_DEBUG`, and the check is case-sensitive), so classification marks
the tool-installed script as externally authored, contrary to the claim. -/
theorem classifier_misses_tool_installed_script_eval :
    get_installed_hooks
        [{ name := "pre-commit", is_file := true,
           content := some (generate_delegator_script "githooks.pre_commit" "PreCommit") }] =
      [("pre-commit", false)] ∧
    str_contains_sub "find_project_root"
      (generate_delegator_script "githooks.pre_commit" "PreCommit") = true ∧
    str_contains_sub "githooklib"
      (generate_delegator_script "githooks.pre_commit" "PreCommit") = false :=
  ⟨classifier_eval_on_rendered_script, rendered_script_has_second_sentinel,
    rendered_script_lacks_first_sentinel⟩

/-! ### Claim C6 -/

lemma lookup_none_forall {l : HooksDir} {k : String} :
    l.lookup k = none → ∀ f ∈ l, (f.1 == k) = false := by
  induction l with
  | nil => simp
  | cons a t ih =>
    obtain ⟨x, y⟩ := a
    intro h f hf
    cases hk : k == x with
    | true => simp [List.lookup, hk] at h
    | false =>
      rcases List.mem_cons.mp hf with hfe | hft
      · subst hfe
        simpa [BEq.comm] using hk
      · exact ih (by simpa [List.lookup, hk] using h) f hft

lemma lookup_append_of_none {l1 l2 : HooksDir} {k : String} :
    l1.lookup k = none → (l1 ++ l2).lookup k = l2.lookup k := by
  induction l1 with
  | nil => simp
  | cons a t ih =>
    obtain ⟨x, y⟩ := a
    intro h
    cases hk : k == x with
    | true => simp [List.lookup, hk] at h
    | false =>
      simp only [List.cons_append, List.lookup, hk]
      exact ih (by simpa [List.lookup, hk] using h)

lemma unlink_write_of_absent {files : HooksDir} {name content : String}
    (h : files.lookup name = none) :
    unlink_file (write_text files name content) name = files := by
  have hw : write_text files name content = files ++ [(name, content)] := by
    simp [write_text, h]
  rw [hw]
  simp only [unlink_file, List.filter_append]
  have h1 : files.filter (fun f => f.1 != name) = files := by
    rw [List.filter_eq_self]
    intro f hf
    simpa [bne] using lookup_none_forall h f hf
  have h2 : ([(name, content)] : HooksDir).filter (fun f => f.1 != name) = [] := by
    simp [bne]
  rw [h1, h2, List.append_nil]

/-- C6 counterexample: in a repository whose hook-slot directory already holds
an externally authored file named `pre-commit`, `install` succeeds (it
overwrites unconditionally), but `install` followed by `uninstall` removes the
file, so the directory's file set is not the pre-install one. -/
theorem install_uninstall_not_restoring_cex :
    (GitHook.install
        ⟨none, none,
          [["repo", ".git"], ["repo", ".git", "hooks"],
           ["repo", "githooks", "pre_commit.py"], ["repo", "githooklib"]],
          ["repo"]⟩
        "githooks.pre_commit" "PreCommit" "pre-commit"
        [("pre-commit", "#!/bin/sh")]).1 = true ∧
    ((GitHook.uninstall
        ⟨none, none,
          [["repo", ".git"], ["repo", ".git", "hooks"],
           ["repo", "githooks", "pre_commit.py"], ["repo", "githooklib"]],
          ["repo"]⟩
        "pre-commit"
        (GitHook.install
          ⟨none, none,
            [["repo", ".git"], ["repo", ".git", "hooks"],
             ["repo", "githooks", "pre_commit.py"], ["repo", "githooklib"]],
            ["repo"]⟩
          "githooks.pre_commit" "PreCommit" "pre-commit"
          [("pre-commit", "#!/bin/sh")]).2).2.map Prod.fst ≠
      ([("pre-commit", "#!/bin/sh")] : HooksDir).map Prod.fst) := by
  decide

/-- C6 (amended): when the hook-slot directory holds no file named after the
hook before installation, a successful `install` followed by `uninstall`
leaves the directory's file map — names and contents — exactly as it was
(install writes `hook-slot-dir/name` unconditionally; uninstall removes
exactly that file).  With a pre-existing file of that name the set is not
restored, as the counterexample shows. -/
theorem install_then_uninstall_restores (env : GitEnv)
    (module_name class_name hook_name : String) (files : HooksDir)
    (hsucc : (GitHook.install env module_name class_name hook_name files).1 = true)
    (habsent : files.lookup hook_name = none) :
    GitHook.uninstall env hook_name
        (GitHook.install env module_name class_name hook_name files).2 =
      (true, files) := by
  rcases hv : validate_installation_prerequisites env with _ | hooks_dir
  · simp [GitHook.install, hv] at hsucc
  rcases hp : GitHook.find_project_root env module_name with _ | project_root
  · simp [GitHook.install, hv, hp] at hsucc
  have hinst : (GitHook.install env module_name class_name hook_name files).2 =
      write_text files hook_name (generate_delegator_script module_name class_name) := by
    simp [GitHook.install, hv, hp]
  have hroot : ∃ git_root, GitHook.find_git_root env = some git_root := by
    rcases hr : GitHook.find_git_root env with _ | git_root
    · simp [validate_installation_prerequisites, hr] at hv
    · exact ⟨git_root, rfl⟩
  obtain ⟨git_root, hr⟩ := hroot
  have hw : write_text files hook_name (generate_delegator_script module_name class_name) =
      files ++ [(hook_name, generate_delegator_script module_name class_name)] := by
    simp [write_text, habsent]
  have hlook : (write_text files hook_name
      (generate_delegator_script module_name class_name)).lookup hook_name =
      some (generate_delegator_script module_name class_name) := by
    rw [hw, lookup_append_of_none habsent]
    simp [List.lookup]
  rw [hinst]
  simp only [GitHook.uninstall, hr, hlook]
  rw [unlink_write_of_absent habsent]

/-- C6 witness: the amended round trip evaluated on a concrete repository with
an initially empty hook-slot directory. -/
theorem install_then_uninstall_restores_witness :
    GitHook.uninstall
        ⟨none, none,
          [["repo", ".git"], ["repo", ".git", "hooks"],
           ["repo", "githooks", "pre_commit.py"], ["repo", "githooklib"]],
          ["repo"]⟩
        "pre-commit"
        (GitHook.install
          ⟨none, none,
            [["repo", ".git"], ["repo", ".git", "hooks"],
             ["repo", "githooks", "pre_commit.py"], ["repo", "githooklib"]],
            ["repo"]⟩
          "githooks.pre_commit" "PreCommit" "pre-commit" []).2 = (true, []) :=
  install_then_uninstall_restores _ _ _ _ _ (by decide) (by decide)


/-! ### Grouping lemmas for discovery -/

lemma lookup_map_append (groups : List (String × List HookImpl)) (impl : HookImpl)
    (n : String) :
    (groups.map (fun g => if g.1 == impl.hookName then (g.1, g.2 ++ [impl]) else g)).lookup n =
      if n == impl.hookName then (groups.lookup n).map (fun v => v ++ [impl])
      else groups.lookup n := by
  induction groups with
  | nil => cases h : (n == impl.hookName) <;> simp [List.lookup, h]
  | cons g t ih =>
    obtain ⟨x, v⟩ := g
    simp only [List.map_cons]
    cases hb : (x == impl.hookName) with
    | true =>
      simp only [eq_self_iff_true, if_true]
      cases hb2 : (n == x) with
      | true =>
        have hb3 : (n == impl.hookName) = true := by
          have h1 : n = x := by simpa using hb2
          have h2 : x = impl.hookName := by simpa using hb
          simp [h1, h2]
        simp only [List.lookup, hb2, hb3]
        simp
      | false =>
        have hb3 : (n == impl.hookName) = false := by
          have h2 : x = impl.hookName := by simpa using hb
          rw [← h2]; exact hb2
        simp only [List.lookup, hb2, hb3]
        rw [ih]
        simp [hb3]
    | false =>
      simp only [Bool.false_eq_true, if_false]
      cases hb2 : (n == x) with
      | true =>
        have hb3 : (n == impl.hookName) = false := by
          have h1 : n = x := by simpa using hb2
          rw [h1]; exact hb
        simp only [List.lookup, hb2, hb3]
        simp
      | false =>
        simp only [List.lookup, hb2]
        rw [ih]

lemma lookup_append_single (groups : List (String × List HookImpl)) (k : String)
    (v : List HookImpl) (n : String) :
    ((groups ++ [(k, v)]).lookup n) =
      match groups.lookup n with
      | some w => some w
      | none => if n == k then some v else none := by
  induction groups with
  | nil => cases h : (n == k) <;> simp [List.lookup, h]
  | cons g t ih =>
    obtain ⟨x, w⟩ := g
    by_cases hn : n = x
    · subst hn; simp [List.lookup]
    · have hnx : (n == x) = false := beq_eq_false_iff_ne.mpr hn
      simp [List.lookup, hnx, ih]

lemma lookup_addToGroups (groups : List (String × List HookImpl)) (impl : HookImpl)
    (n : String) :
    (addToGroups groups impl).lookup n =
      if n == impl.hookName then some (((groups.lookup n).getD []) ++ [impl])
      else groups.lookup n := by
  by_cases hs : (groups.lookup impl.hookName).isSome = true
  · have hmap : addToGroups groups impl =
        groups.map (fun g => if g.1 == impl.hookName then (g.1, g.2 ++ [impl]) else g) := by
      unfold addToGroups; rw [if_pos hs]
    rw [hmap, lookup_map_append]
    by_cases hn : n = impl.hookName
    · subst hn
      obtain ⟨xs, hxs⟩ := Option.isSome_iff_exists.mp hs
      simp [hxs]
    · simp [beq_eq_false_iff_ne.mpr hn]
  · have hmap : addToGroups groups impl = groups ++ [(impl.hookName, [impl])] := by
      unfold addToGroups; rw [if_neg hs]
    rw [hmap, lookup_append_single]
    by_cases hn : n = impl.hookName
    · subst hn
      have hnone : groups.lookup impl.hookName = none := by
        cases h : groups.lookup impl.hookName with
        | none => rfl
        | some w => rw [h] at hs; simp at hs
      simp [hnone]
    · have hb : (n == impl.hookName) = false := beq_eq_false_iff_ne.mpr hn
      cases h : groups.lookup n <;> simp [h, hb]

lemma lookup_foldl_addToGroups (l : List HookImpl) : ∀ (acc) (n : String),
    ((l.foldl addToGroups acc).lookup n) =
      if ((acc.lookup n).isSome || !(l.filter (fun h => h.hookName == n)).isEmpty)
      then some ((acc.lookup n).getD [] ++ l.filter (fun h => h.hookName == n))
      else none := by
  induction l with
  | nil =>
    intro acc n
    cases h : acc.lookup n <;> simp [h]
  | cons h t ih =>
    intro acc n
    rw [List.foldl_cons, ih (addToGroups acc h) n]
    rw [lookup_addToGroups]
    by_cases hn : h.hookName = n
    · have hb : (n == h.hookName) = true := by subst hn; simp
      have hb2 : (h.hookName == n) = true := by subst hn; simp
      simp only [hb, hb2, if_true, List.filter_cons, if_pos]
      cases hacc : acc.lookup n <;> simp [hacc, List.append_assoc]
    · have hb : (n == h.hookName) = false :=
        beq_eq_false_iff_ne.mpr (fun he => hn he.symm)
      have hb2 : (h.hookName == n) = false := beq_eq_false_iff_ne.mpr hn
      simp only [hb, if_false, List.filter_cons, hb2]
      rfl

lemma lookup_groupByName (l : List HookImpl) (n : String) :
    (groupByName l).lookup n =
      if (l.filter (fun h => h.hookName == n)).isEmpty then none
      else some (l.filter (fun h => h.hookName == n)) := by
  unfold groupByName
  rw [lookup_foldl_addToGroups]
  cases h : (l.filter (fun h => h.hookName == n)).isEmpty <;> simp [List.lookup, h]

lemma keys_addToGroups (groups : List (String × List HookImpl)) (impl : HookImpl) :
    (addToGroups groups impl).map Prod.fst =
      if (groups.lookup impl.hookName).isSome then groups.map Prod.fst
      else groups.map Prod.fst ++ [impl.hookName] := by
  by_cases hs : (groups.lookup impl.hookName).isSome = true
  · have hmap : addToGroups groups impl =
        groups.map (fun g => if g.1 == impl.hookName then (g.1, g.2 ++ [impl]) else g) := by
      unfold addToGroups; rw [if_pos hs]
    rw [hmap, if_pos hs, List.map_map]
    refine List.map_congr_left ?_
    intro g _
    simp only [Function.comp_apply]
    split <;> rfl
  · have hmap : addToGroups groups impl = groups ++ [(impl.hookName, [impl])] := by
      unfold addToGroups; rw [if_neg hs]
    rw [hmap, if_neg hs]
    simp

lemma lookup_isSome_iff_mem_keys (groups : List (String × List HookImpl)) (n : String) :
    (groups.lookup n).isSome = true ↔ n ∈ groups.map Prod.fst := by
  induction groups with
  | nil => simp [List.lookup]
  | cons g t ih =>
    obtain ⟨x, v⟩ := g
    by_cases hn : n = x
    · subst hn; simp [List.lookup]
    · have hnx : (n == x) = false := beq_eq_false_iff_ne.mpr hn
      simp [List.lookup, hnx, ih, hn]

lemma keys_nodup_foldl (l : List HookImpl) : ∀ acc,
    ((acc.map Prod.fst).Nodup) → (((l.foldl addToGroups acc).map Prod.fst).Nodup) := by
  induction l with
  | nil => intro acc h; simpa using h
  | cons h t ih =>
    intro acc hacc
    rw [List.foldl_cons]
    refine ih (addToGroups acc h) ?_
    rw [keys_addToGroups]
    by_cases hs : (acc.lookup h.hookName).isSome = true
    · rw [if_pos hs]; exact hacc
    · rw [if_neg hs]
      have hmem : h.hookName ∉ acc.map Prod.fst := by
        rw [← lookup_isSome_iff_mem_keys]
        exact hs
      simp [List.nodup_append, hacc, hmem]

lemma keys_nodup_groupByName (l : List HookImpl) :
    ((groupByName l).map Prod.fst).Nodup :=
  keys_nodup_foldl l [] (by simp)

lemma lookup_eq_of_mem_nodup {groups : List (String × List HookImpl)}
    {g : String × List HookImpl} (hnd : (groups.map Prod.fst).Nodup)
    (hg : g ∈ groups) : groups.lookup g.1 = some g.2 := by
  induction groups with
  | nil => simp at hg
  | cons a t ih =>
    obtain ⟨x, v⟩ := a
    rcases List.mem_cons.mp hg with hge | hgt
    · subst hge; simp [List.lookup]
    · have hx : x ∉ t.map Prod.fst := (List.nodup_cons.mp hnd).1
      have hne : g.1 ≠ x := by
        intro he
        exact hx (he ▸ List.mem_map_of_mem Prod.fst hgt)
      have hb : (g.1 == x) = false := beq_eq_false_iff_ne.mpr hne
      simp [List.lookup, hb]
      exact ih (List.nodup_cons.mp hnd).2 hgt

lemma mem_of_lookup_eq_some {groups : List (String × List HookImpl)} {n : String}
    {v : List HookImpl} (h : groups.lookup n = some v) : (n, v) ∈ groups := by
  induction groups with
  | nil => simp [List.lookup] at h
  | cons a t ih =>
    obtain ⟨x, w⟩ := a
    cases hb : (n == x) with
    | true =>
      have hx : n = x := by simpa using hb
      simp [List.lookup, hb] at h
      subst hx; subst h
      simp
    | false =>
      simp only [List.lookup, hb] at h
      exact List.mem_cons_of_mem _ (ih h)

lemma foldl_addToGroups_of_nodup (l : List HookImpl) : ∀ acc,
    (∀ h ∈ l, acc.lookup h.hookName = none) →
    ((l.map (fun h => h.hookName)).Nodup) →
    l.foldl addToGroups acc = acc ++ l.map (fun h => (h.hookName, [h])) := by
  induction l with
  | nil => intro acc _ _; simp
  | cons h t ih =>
    intro acc hnone hnd
    have hnd' : (h.hookName ∉ t.map (fun h => h.hookName)) ∧
        ((t.map (fun h => h.hookName)).Nodup) := by
      rw [List.map_cons] at hnd
      exact List.nodup_cons.mp hnd
    have h1 : addToGroups acc h = acc ++ [(h.hookName, [h])] := by
      unfold addToGroups
      rw [if_neg (by rw [hnone h (by simp)]; simp)]
    have hcond : ∀ g ∈ t, (acc ++ [(h.hookName, [h])]).lookup g.hookName = none := by
      intro g hg
      rw [lookup_append_single]
      have hga : acc.lookup g.hookName = none := hnone g (by simp [hg])
      rw [hga]
      have hne : g.hookName ≠ h.hookName := by
        intro he
        exact hnd'.1 (he ▸ List.mem_map_of_mem (fun h => h.hookName) hg)
      simp [beq_eq_false_iff_ne.mpr hne]
    rw [List.foldl_cons, h1, ih (acc ++ [(h.hookName, [h])]) hcond hnd'.2]
    simp

lemma groupByName_of_nodup (l : List HookImpl)
    (hnd : (l.map (fun h => h.hookName)).Nodup) :
    groupByName l = l.map (fun h => (h.hookName, [h])) := by
  unfold groupByName
  rw [foldl_addToGroups_of_nodup l [] (fun h _ => rfl) hnd]
  simp

lemma mem_dups_iff (l : List HookImpl) (g : String × List HookImpl) :
    g ∈ (groupByName l).filter (fun g => decide (1 < g.2.length)) ↔
      g.2 = l.filter (fun h => h.hookName == g.1) ∧ 1 < g.2.length := by
  constructor
  · intro hg
    have hmem := (List.mem_filter.mp hg).1
    have hlen : 1 < g.2.length := by simpa using (List.mem_filter.mp hg).2
    have hlook := lookup_eq_of_mem_nodup (keys_nodup_groupByName l) hmem
    rw [lookup_groupByName] at hlook
    by_cases he : (l.filter (fun h => h.hookName == g.1)).isEmpty = true
    · rw [if_pos he] at hlook; exact absurd hlook (by simp)
    · rw [if_neg he] at hlook
      exact ⟨(Option.some_inj.mp hlook).symm, hlen⟩
  · rintro ⟨hfil, hlen⟩
    refine List.mem_filter.mpr ⟨?_, by simpa using hlen⟩
    have hne : ¬(l.filter (fun h => h.hookName == g.1)).isEmpty = true := by
      intro hemp
      rw [List.isEmpty_iff] at hemp
      rw [hfil, hemp] at hlen
      simp at hlen
    have hlook : (groupByName l).lookup g.1 =
        some (l.filter (fun h => h.hookName == g.1)) := by
      rw [lookup_groupByName, if_neg hne]
    have hmem := mem_of_lookup_eq_some hlook
    obtain ⟨g1, g2⟩ := g
    simp only at hfil
    rw [hfil]
    exact hmem

lemma colliding_line_mem (findSpecOrigin : String → Option PyPath)
    (projectRoot : Option PyPath) (l : List HookImpl) {impl : HookImpl}
    (hm : impl ∈ l)
    (hc : 1 < (l.filter (fun h => h.hookName == impl.hookName)).length) :
    impl_error_line findSpecOrigin projectRoot impl ∈
      duplicate_error_lines findSpecOrigin projectRoot
        ((groupByName l).filter (fun g => decide (1 < g.2.length))) := by
  have hg : (impl.hookName, l.filter (fun h => h.hookName == impl.hookName)) ∈
      (groupByName l).filter (fun g => decide (1 < g.2.length)) :=
    (mem_dups_iff l _).mpr ⟨rfl, by simpa using hc⟩
  unfold duplicate_error_lines
  refine List.mem_cons_of_mem _ ?_
  rw [List.mem_flatMap]
  refine ⟨_, hg, ?_⟩
  refine List.mem_cons_of_mem _ ?_
  exact List.mem_map_of_mem _ (List.mem_filter.mpr ⟨hm, by simp⟩)

/-! ### Claim C3 -/

/-- C3: with an empty memo and a resolved project root, `discover_hooks`
raises a duplicate-hook error exactly when some hook name is declared by more
than one registered implementation; on that failure the state (and so the
memo) is unchanged, no map is returned, the message is the one composed from
the complete duplicate groups, and for every colliding implementation the
composed lines contain its line (class identifier plus best-effort source
file, falling back to the bare module identifier). -/
theorem discover_hooks_duplicate_error_iff (env : DiscoveryEnv) (s : APIState)
    (r : PyPath) (hmemo : s.hooksMemo = none) (hroot : s.projectRoot = some r) :
    ((∃ n, 1 < (env.registry.filter (fun h => h.hookName == n)).length) ↔
      ∃ msg, (HookAPI.discover_hooks env s).result = .error msg) ∧
    (∀ msg, (HookAPI.discover_hooks env s).result = .error msg →
      (HookAPI.discover_hooks env s).state = s ∧
      (HookAPI.discover_hooks env s).state.hooksMemo = none ∧
      msg = duplicate_error_message env.findSpecOrigin s.projectRoot
          ((groupByName env.registry).filter (fun g => decide (1 < g.2.length))) ∧
      ∀ impl ∈ env.registry,
        1 < (env.registry.filter (fun h => h.hookName == impl.hookName)).length →
          impl_error_line env.findSpecOrigin s.projectRoot impl ∈
            duplicate_error_lines env.findSpecOrigin s.projectRoot
              ((groupByName env.registry).filter (fun g => decide (1 < g.2.length)))) := by
  obtain ⟨sroot, spaths, smemo⟩ := s
  simp only at hmemo hroot
  subst hmemo
  subst hroot
  by_cases hd : (((groupByName env.registry).filter
      (fun g => decide (1 < g.2.length))).isEmpty) = true
  · have hnodup : ¬∃ n, 1 < (env.registry.filter (fun h => h.hookName == n)).length := by
      rintro ⟨n, hn⟩
      rw [List.isEmpty_iff] at hd
      have hmem : (n, env.registry.filter (fun h => h.hookName == n)) ∈
          (groupByName env.registry).filter (fun g => decide (1 < g.2.length)) :=
        (mem_dups_iff env.registry _).mpr ⟨rfl, hn⟩
      rw [hd] at hmem
      simp at hmem
    have hok : (HookAPI.discover_hooks env ⟨some r, spaths, none⟩).result =
        .ok ((groupByName env.registry).map (fun g => (g.1, g.2.headD defaultHookImpl))) := by
      unfold HookAPI.discover_hooks
      simp [hd]
    constructor
    · constructor
      · intro h; exact absurd h hnodup
      · rintro ⟨msg, hmsg⟩
        rw [hok] at hmsg
        simp at hmsg
    · intro msg hmsg
      rw [hok] at hmsg
      simp at hmsg
  · have herr : HookAPI.discover_hooks env ⟨some r, spaths, none⟩ =
        { result := .error (duplicate_error_message env.findSpecOrigin (some r)
            ((groupByName env.registry).filter (fun g => decide (1 < g.2.length))))
          state := ⟨some r, spaths, none⟩
          loadedModules := find_hook_modules env (some r) spaths } := by
      unfold HookAPI.discover_hooks
      simp [hd]
    have hex : ∃ n, 1 < (env.registry.filter (fun h => h.hookName == n)).length := by
      have hne : ((groupByName env.registry).filter
          (fun g => decide (1 < g.2.length))) ≠ [] := by
        intro h
        rw [h] at hd
        simp at hd
      obtain ⟨g, hg⟩ := List.exists_mem_of_ne_nil _ hne
      obtain ⟨hfil, hlen⟩ := (mem_dups_iff env.registry g).mp hg
      exact ⟨g.1, by rw [← hfil]; exact hlen⟩
    constructor
    · constructor
      · intro _
        exact ⟨_, by rw [herr]⟩
      · intro _; exact hex
    · intro msg hmsg
      rw [herr] at hmsg
      simp only at hmsg
      refine ⟨by rw [herr], by rw [herr], ?_, ?_⟩
      · simpa using hmsg.symm
      · intro impl hm hc
        exact colliding_line_mem env.findSpecOrigin (some r) env.registry hm hc

/-- C3 witness: two implementations both declaring `pre-commit` make
`discover_hooks` raise. -/
theorem discover_hooks_duplicate_error_iff_witness :
    ∃ msg, (HookAPI.discover_hooks
      { registry :=
          [{ className := "PreCommitA", moduleName := "githooks.a", hookName := "pre-commit" },
           { className := "PreCommitB", moduleName := "githooks.b", hookName := "pre-commit" }]
        findSpecOrigin := fun _ => none, dirs := [], cwd := [] }
      { projectRoot := some ["repo"], hookSearchPaths := [], hooksMemo := none }).result =
      .error msg :=
  (discover_hooks_duplicate_error_iff _ _ ["repo"] rfl rfl).1.mp
    ⟨"pre-commit", by decide⟩

/-! ### Claim C4 -/

/-- C4: when the registered implementations declare pairwise distinct names
(the situation after loading hook files with distinct declared names),
`discover_hooks` succeeds and returns the map whose keys are precisely those
declared names, each bound to its implementation, memoizes it, and reports the
candidate files it loaded. -/
theorem discover_hooks_distinct_names_exact (env : DiscoveryEnv) (s : APIState)
    (r : PyPath) (hmemo : s.hooksMemo = none) (hroot : s.projectRoot = some r)
    (hnd : (env.registry.map (fun h => h.hookName)).Nodup) :
    HookAPI.discover_hooks env s =
      { result := .ok (env.registry.map (fun h => (h.hookName, h)))
        state := { s with hooksMemo := some (env.registry.map (fun h => (h.hookName, h))) }
        loadedModules := find_hook_modules env s.projectRoot s.hookSearchPaths } := by
  obtain ⟨sroot, spaths, smemo⟩ := s
  simp only at hmemo hroot
  subst hmemo
  subst hroot
  have hg := groupByName_of_nodup env.registry hnd
  have hdups2 : (env.registry.map (fun h => (h.hookName, [h]))).filter
      (fun g => decide (1 < g.2.length)) = [] := by
    rw [List.filter_eq_nil_iff]
    intro a ha
    obtain ⟨h, _, rfl⟩ := List.mem_map.mp ha
    simp
  have hmaps : List.map (fun g => (g.1, g.2.headD defaultHookImpl))
      (List.map (fun h => (h.hookName, [h])) env.registry) =
      List.map (fun h => (h.hookName, h)) env.registry := by
    rw [List.map_map]
    refine List.map_congr_left ?_
    intro h _
    simp
  unfold HookAPI.discover_hooks
  simp only [hg, hdups2, List.isEmpty_nil, Bool.not_true, Bool.false_eq_true, if_false,
    hmaps]

/-- C4 witness: a single registered hook named `pre-commit` is discovered as
exactly that one-entry map. -/
theorem discover_hooks_distinct_names_exact_witness :
    HookAPI.discover_hooks
      { registry :=
          [{ className := "PreCommit", moduleName := "githooks.pre_commit",
             hookName := "pre-commit" }]
        findSpecOrigin := fun _ => none, dirs := [], cwd := [] }
      { projectRoot := some ["repo"], hookSearchPaths := [], hooksMemo := none } =
      { result := .ok [("pre-commit",
          { className := "PreCommit", moduleName := "githooks.pre_commit",
            hookName := "pre-commit" })]
        state := { projectRoot := some ["repo"], hookSearchPaths := [],
                   hooksMemo := some [("pre-commit",
                     { className := "PreCommit", moduleName := "githooks.pre_commit",
                       hookName := "pre-commit" })] }
        loadedModules := [] } :=
  discover_hooks_distinct_names_exact _ _ ["repo"] rfl rfl (by decide)

/-! ### Claim C9 -/

/-- C9: a populated memo makes `discover_hooks` return the memoized map with
the state unchanged and no module loaded; a first successful computing call
populates the memo with the returned map; `set_hook_paths` replaces the
search paths and clears the memo while keeping the project root; after
`set_hook_paths` the next call is independent of the previous session state
(any two states with the same project root give the same outcome) and loads
the hook modules found under the new search paths. -/
theorem discover_hooks_memoization (env : DiscoveryEnv) (s : APIState)
    (m : List (String × HookImpl)) (paths : List SearchPath) (r : PyPath) :
    (s.hooksMemo = some m →
      HookAPI.discover_hooks env s =
        { result := .ok m, state := s, loadedModules := [] }) ∧
    (s.hooksMemo = none → s.projectRoot = some r →
      ∀ hooks, (HookAPI.discover_hooks env s).result = .ok hooks →
        (HookAPI.discover_hooks env s).state.hooksMemo = some hooks) ∧
    ((HookAPI.set_hook_paths s paths).hookSearchPaths = paths ∧
      (HookAPI.set_hook_paths s paths).hooksMemo = none ∧
      (HookAPI.set_hook_paths s paths).projectRoot = s.projectRoot) ∧
    (∀ s₂ : APIState, s₂.projectRoot = s.projectRoot →
      HookAPI.discover_hooks env (HookAPI.set_hook_paths s paths) =
        HookAPI.discover_hooks env (HookAPI.set_hook_paths s₂ paths)) ∧
    (s.projectRoot = some r →
      (HookAPI.discover_hooks env (HookAPI.set_hook_paths s paths)).loadedModules =
        find_hook_modules env (some r) paths) := by
  refine ⟨?_, ?_, ⟨rfl, rfl, rfl⟩, ?_, ?_⟩
  · intro hm
    obtain ⟨sroot, spaths, smemo⟩ := s
    simp only at hm
    subst hm
    rfl
  · intro hm hr hooks hok
    obtain ⟨sroot, spaths, smemo⟩ := s
    simp only at hm hr
    subst hm
    subst hr
    by_cases hd : (((groupByName env.registry).filter
        (fun g => decide (1 < g.2.length))).isEmpty) = true
    · have heval : HookAPI.discover_hooks env ⟨some r, spaths, none⟩ =
          { result := .ok ((groupByName env.registry).map
              (fun g => (g.1, g.2.headD defaultHookImpl)))
            state := ⟨some r, spaths, some ((groupByName env.registry).map
              (fun g => (g.1, g.2.headD defaultHookImpl)))⟩
            loadedModules := find_hook_modules env (some r) spaths } := by
        unfold HookAPI.discover_hooks
        simp [hd]
      rw [heval] at hok ⊢
      simp only [Except.ok.injEq] at hok
      subst hok
      rfl
    · have heval : HookAPI.discover_hooks env ⟨some r, spaths, none⟩ =
          { result := .error (duplicate_error_message env.findSpecOrigin (some r)
              ((groupByName env.registry).filter (fun g => decide (1 < g.2.length))))
            state := ⟨some r, spaths, none⟩
            loadedModules := find_hook_modules env (some r) spaths } := by
        unfold HookAPI.discover_hooks
        simp [hd]
      rw [heval] at hok
      simp at hok
  · intro s₂ hps
    unfold HookAPI.set_hook_paths HookAPI.discover_hooks
    rw [hps]
  · intro hr
    unfold HookAPI.set_hook_paths HookAPI.discover_hooks
    simp only [hr]
    by_cases hd : (((groupByName env.registry).filter
        (fun g => decide (1 < g.2.length))).isEmpty) = true <;> simp [hd]

/-- C9 witness: a session whose memo is already populated returns the
memoized map unchanged without loading anything. -/
theorem discover_hooks_memoization_witness :
    HookAPI.discover_hooks
      { registry := [], findSpecOrigin := fun _ => none, dirs := [], cwd := [] }
      { projectRoot := some ["repo"], hookSearchPaths := [],
        hooksMemo := some [("pre-commit",
          { className := "PreCommit", moduleName := "githooks.pre_commit",
            hookName := "pre-commit" })] } =
      { result := .ok [("pre-commit",
          { className := "PreCommit", moduleName := "githooks.pre_commit",
            hookName := "pre-commit" })],
        state := { projectRoot := some ["repo"], hookSearchPaths := [],
                   hooksMemo := some [("pre-commit",
                     { className := "PreCommit", moduleName := "githooks.pre_commit",
                       hookName := "pre-commit" })] },
        loadedModules := [] } :=
  (discover_hooks_memoization _ _ _ [] ["repo"]).1 rfl
